import Mathlib

/-!
Shallow embedding of the GuardiansOfTheServers monitoring scripts
(`master_monitor.py`, `monitor_sashimi.py`, `config.py`).

Modelling conventions:
* Python floats (temperatures, uptimes, POSIX timestamps) are modelled as
  exact rationals `ℚ`; `int(x)` truncation toward zero is `pyInt`.
* The two persisted Python dicts (`last_uptime`, `down_since`) are modelled
  as association lists from host name to `ℚ` with Python's dict semantics:
  assignment replaces the binding of an existing key in place (or appends a
  new binding at the end), `del` removes the key, `in` tests key membership.
* Outbound behaviour (Discord alerts, JSON file saves) is recorded as an
  explicit effect trace instead of performing I/O.
* Fallible external calls (SSH commands, file reads, metric parsing) are
  modelled by `Except`/`FileState` inputs describing the call's outcome,
  so the exception-swallowing wrappers of the source become total functions.
-/

/-- A persisted host-name-keyed map (a Python dict loaded from JSON). -/
abbrev StrMap := List (String × ℚ)

/-- Python `k in d` key-membership test. -/
def hasKey : StrMap → String → Bool
  | [], _ => false
  | (k', _) :: rest, k => k' = k || hasKey rest k

/-- Python `d[k]` lookup: value of the (unique) binding of `k`, if any. -/
def getVal? : StrMap → String → Option ℚ
  | [], _ => none
  | (k', v') :: rest, k => if k' = k then some v' else getVal? rest k

/-- Python `d[k] = v`: replace the binding of `k` in place if present,
otherwise append a new binding at the end (insertion order preserved). -/
def setKey : StrMap → String → ℚ → StrMap
  | [], k, v => [(k, v)]
  | (k', v') :: rest, k, v =>
      if k' = k then (k, v) :: rest else (k', v') :: setKey rest k v

/-- Python `del d[k]`: remove the binding of `k`. -/
def eraseKey : StrMap → String → StrMap
  | [], _ => []
  | (k', v') :: rest, k =>
      if k' = k then eraseKey rest k else (k', v') :: eraseKey rest k

theorem hasKey_setKey_self (m : StrMap) (k : String) (v : ℚ) :
    hasKey (setKey m k v) k = true := by
  induction m with
  | nil => simp [setKey, hasKey]
  | cons p rest ih =>
      obtain ⟨k', v'⟩ := p
      by_cases h : k' = k
      · simp [setKey, h, hasKey]
      · simp [setKey, h, hasKey, ih]

theorem getVal?_setKey_self (m : StrMap) (k : String) (v : ℚ) :
    getVal? (setKey m k v) k = some v := by
  induction m with
  | nil => simp [setKey, getVal?]
  | cons p rest ih =>
      obtain ⟨k', v'⟩ := p
      by_cases h : k' = k
      · simp [setKey, h, getVal?]
      · simp [setKey, h, getVal?, ih]

theorem hasKey_eraseKey_self (m : StrMap) (k : String) :
    hasKey (eraseKey m k) k = false := by
  induction m with
  | nil => simp [eraseKey, hasKey]
  | cons p rest ih =>
      obtain ⟨k', v'⟩ := p
      by_cases h : k' = k
      · simp [eraseKey, h, ih]
      · simp [eraseKey, h, hasKey, ih]

theorem setKey_eq_self_of_getVal? (m : StrMap) (k : String) (v : ℚ)
    (h : getVal? m k = some v) : setKey m k v = m := by
  induction m with
  | nil => simp [getVal?] at h
  | cons p rest ih =>
      obtain ⟨k', v'⟩ := p
      by_cases hk : k' = k
      · subst hk
        simp [getVal?] at h
        simp [setKey, h]
      · simp [getVal?, hk] at h
        simp [setKey, hk, ih h]

theorem hasKey_setKey_mono (m : StrMap) (k g : String) (v : ℚ)
    (h : hasKey m k = true) : hasKey (setKey m g v) k = true := by
  induction m with
  | nil => simp [hasKey] at h
  | cons p rest ih =>
      obtain ⟨k', v'⟩ := p
      simp [hasKey] at h
      by_cases hg : k' = g
      · subst hg
        simp [setKey, hasKey]
        exact h
      · simp [setKey, hg, hasKey]
        rcases h with h | h
        · exact Or.inl h
        · exact Or.inr (ih h)

theorem hasKey_setKey_ne (m : StrMap) (k g : String) (v : ℚ) (h : g ≠ k) :
    hasKey (setKey m g v) k = hasKey m k := by
  induction m with
  | nil => simp [setKey, hasKey, h]
  | cons p rest ih =>
      obtain ⟨k', v'⟩ := p
      by_cases hg : k' = g
      · subst hg
        simp [setKey, hasKey, h]
      · simp [setKey, hg, hasKey, ih]

theorem getVal?_setKey_ne (m : StrMap) (k g : String) (v : ℚ) (h : g ≠ k) :
    getVal? (setKey m g v) k = getVal? m k := by
  induction m with
  | nil => simp [setKey, getVal?, h]
  | cons p rest ih =>
      obtain ⟨k', v'⟩ := p
      by_cases hg : k' = g
      · subst hg
        simp [setKey, getVal?, h]
      · simp [setKey, hg, getVal?, ih]

theorem hasKey_eraseKey_ne (m : StrMap) (k g : String) (h : g ≠ k) :
    hasKey (eraseKey m g) k = hasKey m k := by
  induction m with
  | nil => simp [eraseKey]
  | cons p rest ih =>
      obtain ⟨k', v'⟩ := p
      by_cases hg : k' = g
      · subst hg
        simp [eraseKey, hasKey, ih, h]
      · simp [eraseKey, hg, hasKey, ih]

theorem getVal?_eraseKey_ne (m : StrMap) (k g : String) (h : g ≠ k) :
    getVal? (eraseKey m g) k = getVal? m k := by
  induction m with
  | nil => simp [eraseKey]
  | cons p rest ih =>
      obtain ⟨k', v'⟩ := p
      by_cases hg : k' = g
      · subst hg
        simp [eraseKey, getVal?, ih, h]
      · simp [eraseKey, hg, getVal?, ih]

theorem hasKey_iff_getVal?_isSome (m : StrMap) (k : String) :
    hasKey m k = true ↔ (getVal? m k).isSome = true := by
  induction m with
  | nil => simp [hasKey, getVal?]
  | cons p rest ih =>
      obtain ⟨k', v'⟩ := p
      by_cases h : k' = k
      · simp [hasKey, getVal?, h]
      · simp [hasKey, getVal?, h, ih]

/-- Python `int(x)` applied to an exact rational: truncation toward zero. -/
def pyInt (q : ℚ) : ℤ := q.num.tdiv q.den

/-- A GPU process record as built by `get_gpu_processes`
(`master_monitor.py`, lines 149-193); all fields are the strings parsed
from the `nvidia-smi`/`ps` output. -/
structure GpuProcess where
  pid : String
  username : String
  process_name : String
  gpu_mem_mb : String
deriving DecidableEq

/-- The dict returned by `get_temperatures`: CPU and GPU temperature, each
`0.0` when it could not be determined. -/
structure Temps where
  cpu : ℚ
  gpu : ℚ
deriving DecidableEq

/-- One entry of `config.SERVERS`. -/
structure Server where
  name : String
  address : String
deriving DecidableEq

/-- The configuration consumed by `monitor` (`config.py`). -/
structure Config where
  SERVERS : List Server
  CPU_TEMP_THRESHOLD : ℚ
  GPU_TEMP_THRESHOLD : ℚ

/-- State of a persisted JSON file as seen by the load functions: missing,
present but unreadable or unparseable, or parsed to a map. -/
inductive FileState
  | absent
  | corrupt
  | ok (m : StrMap)
deriving DecidableEq

/-- The `last_uptime.json` loader (`master_monitor.py`, lines 27-35): the
parsed map when the file exists and parses, the empty dict otherwise. -/
def load_last_uptime : FileState → StrMap
  | .absent => []
  | .corrupt => []
  | .ok m => m

/-- The `down_since.json` loader (`master_monitor.py`, lines 45-53). -/
def load_down_since : FileState → StrMap
  | .absent => []
  | .corrupt => []
  | .ok m => m

/-- Reachability probe (`master_monitor.py`, lines 139-147): the argument is
the outcome of running `uptime` on the host (`Except.error` when the
command raised); any success means reachable, any exception means not. -/
def is_server_reachable (probe : Except Unit String) : Bool :=
  match probe with
  | .ok _ => true
  | .error _ => false

/-- Uptime query (`master_monitor.py`, lines 220-227): the argument is the
outcome of running and parsing `cat /proc/uptime` (`Except.error` when the
command or the float parse raised); failure yields the `0.0` sentinel. -/
def get_system_uptime (r : Except Unit ℚ) : ℚ :=
  match r with
  | .ok u => u
  | .error _ => 0

/-- Python `max` on a list of numbers (never applied to `[]` here). -/
def pymax : List ℚ → ℚ
  | [] => 0
  | x :: xs => xs.foldl max x

/-- Temperature query (`master_monitor.py`, lines 195-218). `cpuRes` is the
outcome of running and parsing the CPU-sensor command; `gpuRes` is the
outcome of running the per-GPU temperature command and parsing each line
(`Except.error` when the command or any line's float parse raised, `.ok`
the list of parsed readings otherwise). Each sensor stays at the `0.0`
sentinel on its own failure, and the GPU temperature is the `max` of the
readings when there is at least one. -/
def get_temperatures (cpuRes : Except Unit ℚ) (gpuRes : Except Unit (List ℚ)) : Temps :=
  let cpu := match cpuRes with
    | .ok c => c
    | .error _ => 0
  let gpu := match gpuRes with
    | .ok ts => if ts.isEmpty then 0 else pymax ts
    | .error _ => 0
  ⟨cpu, gpu⟩

/-- GPU process query (`master_monitor.py`, lines 149-193): the argument is
the outcome of running and parsing the `nvidia-smi` compute-apps command;
failure yields the empty list. -/
def get_gpu_processes (r : Except Unit (List GpuProcess)) : List GpuProcess :=
  match r with
  | .ok l => l
  | .error _ => []

/-- Everything the wrapped collaborator calls report about one host during
a pass: `reachable` is `is_server_reachable`'s result, `temps` is
`get_temperatures`'s, `gpuProcs` is `get_gpu_processes`'s and `uptime`
is `get_system_uptime`'s. -/
structure HostObs where
  reachable : Bool
  temps : Temps
  gpuProcs : List GpuProcess
  uptime : ℚ

/-- A structured Discord alert: one constructor per `send_discord_alert`
call site of the two scripts. -/
inductive Alert
  | isDown (host : String)
  | downFor (host : String) (secs : ℤ)
  | backUp (host : String) (secs : ℤ)
  | cpuHot (host : String) (temp threshold : ℚ)
  | gpuHot (host : String) (temp threshold : ℚ) (procs : List GpuProcess)
  | rebooted (host : String)
  | appearsDown (host : String)
deriving DecidableEq

/-- An observable side effect of a pass: an alert sent, or one of the two
JSON files saved with the given contents. -/
inductive Effect
  | alert (a : Alert)
  | saveDownSince (m : StrMap)
  | saveLastUptime (m : StrMap)
deriving DecidableEq

/-- Monitor state: the two persisted maps. -/
structure MonState where
  lastUptime : StrMap
  downSince : StrMap
deriving DecidableEq

/-- The body of `monitor`'s per-server loop (`master_monitor.py`, lines
234-291) for one server name: `env` gives the wrapped collaborator results
for each host this pass, `now` is `datetime.now().timestamp()`. Returns
the updated state and the ordered effect trace of this iteration. -/
def processHost (cfg : Config) (env : String → HostObs) (now : ℚ)
    (st : MonState) (server_name : String) : MonState × List Effect :=
  let obs := env server_name
  if !obs.reachable then
    if !(hasKey st.downSince server_name) then
      let ds := setKey st.downSince server_name now
      (⟨st.lastUptime, ds⟩,
       [Effect.saveDownSince ds, Effect.alert (Alert.isDown server_name)])
    else
      let down_time := now - (getVal? st.downSince server_name).getD 0
      (st, [Effect.alert (Alert.downFor server_name (pyInt down_time))])
  else
    let step1 : MonState × List Effect :=
      if hasKey st.downSince server_name then
        let down_time := now - (getVal? st.downSince server_name).getD 0
        let ds := eraseKey st.downSince server_name
        (⟨st.lastUptime, ds⟩,
         [Effect.alert (Alert.backUp server_name (pyInt down_time)),
          Effect.saveDownSince ds])
      else (st, [])
    let st1 := step1.1
    let temps := obs.temps
    let effCpu : List Effect :=
      if temps.cpu > cfg.CPU_TEMP_THRESHOLD then
        [Effect.alert (Alert.cpuHot server_name temps.cpu cfg.CPU_TEMP_THRESHOLD)]
      else []
    let effGpu : List Effect :=
      if temps.gpu > cfg.GPU_TEMP_THRESHOLD then
        [Effect.alert
          (Alert.gpuHot server_name temps.gpu cfg.GPU_TEMP_THRESHOLD obs.gpuProcs)]
      else []
    let current_uptime := obs.uptime
    let effReboot : List Effect :=
      if hasKey st1.lastUptime server_name then
        if current_uptime + 300 < (getVal? st1.lastUptime server_name).getD 0 then
          [Effect.alert (Alert.rebooted server_name)]
        else []
      else []
    let lu := setKey st1.lastUptime server_name current_uptime
    (⟨lu, st1.downSince⟩,
     step1.2 ++ effCpu ++ effGpu ++ effReboot ++ [Effect.saveLastUptime lu])

/-- One fold step of `monitor`'s loop, threading state and accumulating
the effect trace. -/
def monitorStep (cfg : Config) (env : String → HostObs) (now : ℚ)
    (acc : MonState × List Effect) (s : Server) : MonState × List Effect :=
  let r := processHost cfg env now acc.1 s.name
  (r.1, acc.2 ++ r.2)

/-- The `monitor` pass (`master_monitor.py`, lines 229-291), starting from
the already-loaded state `st`: evaluate every configured server in order.
The maps a completed pass leaves on disk are exactly those of the final
state, because every mutation of either map is immediately followed by the
corresponding save and an unmodified map's file keeps the loaded
contents. -/
def monitor (cfg : Config) (env : String → HostObs) (now : ℚ)
    (st : MonState) : MonState × List Effect :=
  cfg.SERVERS.foldl (monitorStep cfg env now) (st, [])

/-- State-only view of one loop iteration. -/
def stepState (cfg : Config) (env : String → HostObs) (now : ℚ)
    (st : MonState) (s : Server) : MonState :=
  (processHost cfg env now st s.name).1

/-- State-only view of a whole pass. -/
def monitorState (cfg : Config) (env : String → HostObs) (now : ℚ)
    (st : MonState) : MonState :=
  cfg.SERVERS.foldl (stepState cfg env now) st

/-- The single-peer probe (`monitor_sashimi.py`, lines 55-84): the argument
is the outcome of the SSH `uptime` round-trip to `rtx_sashimi`; success
means reachable, any exception means not. -/
def is_sashimi_reachable (probe : Except Unit String) : Bool :=
  match probe with
  | .ok _ => true
  | .error _ => false

/-- The single-peer monitor (`monitor_sashimi.py`, lines 86-89): probe the
peer and alert when it is unreachable. It takes no state and its trace is
its only output. -/
def monitor_sashimi (probe : Except Unit String) : List Effect :=
  if !(is_sashimi_reachable probe) then
    [Effect.alert (Alert.appearsDown "sashimi")]
  else []

theorem processHost_unreachable_new (cfg : Config) (env : String → HostObs)
    (now : ℚ) (st : MonState) (n : String)
    (h : (env n).reachable = false) (hds : hasKey st.downSince n = false) :
    processHost cfg env now st n =
      (⟨st.lastUptime, setKey st.downSince n now⟩,
       [Effect.saveDownSince (setKey st.downSince n now),
        Effect.alert (Alert.isDown n)]) := by
  simp [processHost, h, hds]

theorem processHost_unreachable_again (cfg : Config) (env : String → HostObs)
    (now : ℚ) (st : MonState) (n : String) (t : ℚ)
    (h : (env n).reachable = false) (ht : getVal? st.downSince n = some t) :
    processHost cfg env now st n =
      (st, [Effect.alert (Alert.downFor n (pyInt (now - t)))]) := by
  have hds : hasKey st.downSince n = true :=
    (hasKey_iff_getVal?_isSome st.downSince n).mpr (by simp [ht])
  simp [processHost, h, hds, ht]

theorem processHost_reachable (cfg : Config) (env : String → HostObs)
    (now : ℚ) (st : MonState) (n : String)
    (h : (env n).reachable = true) :
    processHost cfg env now st n =
      (⟨setKey st.lastUptime n (env n).uptime,
        if hasKey st.downSince n then eraseKey st.downSince n else st.downSince⟩,
       (if hasKey st.downSince n then
          [Effect.alert
             (Alert.backUp n (pyInt (now - (getVal? st.downSince n).getD 0))),
           Effect.saveDownSince (eraseKey st.downSince n)]
        else [])
       ++ (if (env n).temps.cpu > cfg.CPU_TEMP_THRESHOLD then
             [Effect.alert
               (Alert.cpuHot n (env n).temps.cpu cfg.CPU_TEMP_THRESHOLD)]
           else [])
       ++ (if (env n).temps.gpu > cfg.GPU_TEMP_THRESHOLD then
             [Effect.alert
               (Alert.gpuHot n (env n).temps.gpu cfg.GPU_TEMP_THRESHOLD
                 (env n).gpuProcs)]
           else [])
       ++ (if hasKey st.lastUptime n then
             if (env n).uptime + 300 < (getVal? st.lastUptime n).getD 0 then
               [Effect.alert (Alert.rebooted n)]
             else []
           else [])
       ++ [Effect.saveLastUptime (setKey st.lastUptime n (env n).uptime)]) := by
  by_cases hds : hasKey st.downSince n
  · simp [processHost, h, hds]
  · simp [processHost, h, hds]

/-- Claim C1: immediately after a host's evaluation in a poll, `down_since`
contains the host as a key if and only if this poll's reachability check
for it returned false. -/
theorem C1_down_since_iff_unreachable (cfg : Config) (env : String → HostObs)
    (now : ℚ) (st : MonState) (n : String) :
    hasKey (processHost cfg env now st n).1.downSince n = !(env n).reachable := by
  cases hr : (env n).reachable
  · cases hds : hasKey st.downSince n
    · rw [processHost_unreachable_new cfg env now st n hr hds]
      simp [hasKey_setKey_self]
    · rcases Option.isSome_iff_exists.mp
        ((hasKey_iff_getVal?_isSome st.downSince n).mp hds) with ⟨t, ht⟩
      rw [processHost_unreachable_again cfg env now st n t hr ht]
      simp [hds]
  · rw [processHost_reachable cfg env now st n hr]
    cases hds : hasKey st.downSince n
    · simp [hds]
    · simp [hds, hasKey_eraseKey_self]

/-- Claim C2: on an unreachable host with no `down_since` entry, the entry
is created with the current timestamp, the map is saved, and exactly one
"is down" alert is emitted; on an unreachable host with an entry taken at
`t`, exactly one "down for N seconds" alert with `N = int(now - t)` is
emitted and the state is untouched. In both cases these are the only
effects of the iteration: no temperature or uptime check runs. -/
theorem C2_unreachable_behaviour (cfg : Config) (env : String → HostObs)
    (now : ℚ) (st : MonState) (n : String)
    (h : (env n).reachable = false) :
    (hasKey st.downSince n = false →
       processHost cfg env now st n =
         (⟨st.lastUptime, setKey st.downSince n now⟩,
          [Effect.saveDownSince (setKey st.downSince n now),
           Effect.alert (Alert.isDown n)]))
    ∧ (∀ t, getVal? st.downSince n = some t →
       processHost cfg env now st n =
         (st, [Effect.alert (Alert.downFor n (pyInt (now - t)))])) := by
  constructor
  · intro hds
    exact processHost_unreachable_new cfg env now st n h hds
  · intro t ht
    exact processHost_unreachable_again cfg env now st n t h ht

theorem C2_unreachable_witness :
    (processHost ⟨[⟨"a", "a"⟩], 89, 89⟩ (fun _ => ⟨false, ⟨0, 0⟩, [], 0⟩) 50
        ⟨[], []⟩ "a" =
      (⟨[], [("a", 50)]⟩,
       [Effect.saveDownSince [("a", 50)], Effect.alert (Alert.isDown "a")]))
    ∧ (processHost ⟨[⟨"a", "a"⟩], 89, 89⟩ (fun _ => ⟨false, ⟨0, 0⟩, [], 0⟩) 80
        ⟨[], [("a", 50)]⟩ "a" =
      (⟨[], [("a", 50)]⟩, [Effect.alert (Alert.downFor "a" 30)])) := by
  constructor
  · exact (C2_unreachable_behaviour _ _ 50 _ "a" (by decide)).1 (by decide)
  · rw [(C2_unreachable_behaviour _ _ 80 _ "a" (by decide)).2 50 (by decide)]
    norm_num [pyInt]

/-- Claim C3: when a host with a `down_since` entry taken at `t` is found
reachable, the iteration's trace starts with a recovery alert reporting
`int(now - t)` seconds of downtime, immediately followed by a save of the
map with the entry deleted, and the resulting state no longer has the
entry. -/
theorem C3_recovery_behaviour (cfg : Config) (env : String → HostObs)
    (now : ℚ) (st : MonState) (n : String) (t : ℚ)
    (h : (env n).reachable = true)
    (ht : getVal? st.downSince n = some t) :
    (processHost cfg env now st n).1.downSince = eraseKey st.downSince n
    ∧ ∃ rest, (processHost cfg env now st n).2 =
        Effect.alert (Alert.backUp n (pyInt (now - t))) ::
        Effect.saveDownSince (eraseKey st.downSince n) :: rest := by
  have hds : hasKey st.downSince n = true :=
    (hasKey_iff_getVal?_isSome st.downSince n).mpr (by simp [ht])
  rw [processHost_reachable cfg env now st n h]
  constructor
  · simp [hds]
  · simp only [hds, ht, if_true, Option.getD_some, List.cons_append,
      List.nil_append, List.append_assoc]
    exact ⟨_, rfl⟩

theorem C3_recovery_witness :
    ((processHost ⟨[⟨"a", "a"⟩], 89, 89⟩ (fun _ => ⟨true, ⟨0, 0⟩, [], 7⟩) 80
        ⟨[], [("a", 50)]⟩ "a").1.downSince = [])
    ∧ ∃ rest, (processHost ⟨[⟨"a", "a"⟩], 89, 89⟩
        (fun _ => ⟨true, ⟨0, 0⟩, [], 7⟩) 80 ⟨[], [("a", 50)]⟩ "a").2 =
        Effect.alert (Alert.backUp "a" 30) :: Effect.saveDownSince [] :: rest := by
  obtain ⟨h1, rest, h2⟩ :=
    C3_recovery_behaviour ⟨[⟨"a", "a"⟩], 89, 89⟩ (fun _ => ⟨true, ⟨0, 0⟩, [], 7⟩)
      80 ⟨[], [("a", 50)]⟩ "a" 50 (by decide) (by decide)
  have e1 : pyInt ((80 : ℚ) - 50) = 30 := by norm_num [pyInt]
  have e2 : eraseKey [("a", (50 : ℚ))] "a" = [] := by decide
  refine ⟨?_, ⟨rest, ?_⟩⟩
  · rw [h1]
    decide
  · rw [h2, e1, e2]

theorem mem_ite_nil {α : Type} (a : α) (c : Prop) [Decidable c] (l : List α) :
    (a ∈ if c then l else []) ↔ c ∧ a ∈ l := by
  split_ifs with hc
  · simp [hc]
  · simp [hc]

/-- Claim C4, counterexample: with a (hypothetical) negative CPU threshold,
a reading exactly equal to the 0.0 sentinel does produce a CPU threshold
alert — the code's strict comparison is the only guard, and nothing skips
the check when the reading equals the sentinel. -/
theorem C4_sentinel_counterexample :
    Effect.alert (Alert.cpuHot "a" 0 (-1)) ∈
      (processHost ⟨[⟨"a", "a"⟩], -1, -1⟩ (fun _ => ⟨true, ⟨0, 0⟩, [], 5⟩)
        100 ⟨[], []⟩ "a").2 := by
  rw [processHost_reachable _ _ 100 _ "a" (by decide)]
  have hc : ((0 : ℚ) > (-1 : ℚ)) := by norm_num
  simp [hasKey, hc]

/-- Claim C4 as amended: with any nonnegative thresholds (in particular
the positive configured ones), a temperature reading exactly equal to the
0.0 sentinel never produces a CPU or GPU threshold alert; this rests on
the strict `>` comparison alone, as there is no explicit sentinel guard in
the code. -/
theorem C4_sentinel_amended (cfg : Config) (env : String → HostObs)
    (now : ℚ) (st : MonState) (n : String)
    (hcpu : 0 ≤ cfg.CPU_TEMP_THRESHOLD) (hgpu : 0 ≤ cfg.GPU_TEMP_THRESHOLD)
    (hc : (env n).temps.cpu = 0) (hg : (env n).temps.gpu = 0) :
    (∀ t th, Effect.alert (Alert.cpuHot n t th) ∉ (processHost cfg env now st n).2)
    ∧ (∀ t th ps,
        Effect.alert (Alert.gpuHot n t th ps) ∉ (processHost cfg env now st n).2) := by
  have hcpu' : ¬ ((env n).temps.cpu > cfg.CPU_TEMP_THRESHOLD) := by
    rw [hc]; exact not_lt.mpr hcpu
  have hgpu' : ¬ ((env n).temps.gpu > cfg.GPU_TEMP_THRESHOLD) := by
    rw [hg]; exact not_lt.mpr hgpu
  cases hr : (env n).reachable
  · cases hds : hasKey st.downSince n
    · rw [processHost_unreachable_new cfg env now st n hr hds]
      exact ⟨by intro t th; simp, by intro t th ps; simp⟩
    · rcases Option.isSome_iff_exists.mp
        ((hasKey_iff_getVal?_isSome st.downSince n).mp hds) with ⟨t0, ht⟩
      rw [processHost_unreachable_again cfg env now st n t0 hr ht]
      exact ⟨by intro t th; simp, by intro t th ps; simp⟩
  · rw [processHost_reachable cfg env now st n hr]
    rw [if_neg hcpu', if_neg hgpu']
    constructor
    · intro t th
      simp only [List.mem_append, mem_ite_nil, List.mem_singleton]
      intro hmem
      rcases hmem with ((((⟨_, h⟩ | h) | h) | ⟨_, h⟩) | h) <;> simp_all
    · intro t th ps
      simp only [List.mem_append, mem_ite_nil, List.mem_singleton]
      intro hmem
      rcases hmem with ((((⟨_, h⟩ | h) | h) | ⟨_, h⟩) | h) <;> simp_all

theorem C4_sentinel_witness :
    (∀ t th, Effect.alert (Alert.cpuHot "a" t th) ∉
      (processHost ⟨[⟨"a", "a"⟩], 89, 89⟩ (fun _ => ⟨true, ⟨0, 0⟩, [], 5⟩)
        100 ⟨[], []⟩ "a").2)
    ∧ (∀ t th ps, Effect.alert (Alert.gpuHot "a" t th ps) ∉
      (processHost ⟨[⟨"a", "a"⟩], 89, 89⟩ (fun _ => ⟨true, ⟨0, 0⟩, [], 5⟩)
        100 ⟨[], []⟩ "a").2) :=
  C4_sentinel_amended _ _ 100 _ "a" (by norm_num) (by norm_num)
    (by decide) (by decide)

/-- Claim C5: for a reachable host, a reboot alert is emitted exactly when
a previous uptime is recorded and the current reading plus the 300-second
grace window is still below it (the tolerance is the literal 300 in the
code, the default the claim names); with no recorded uptime no reboot
alert is emitted. -/
theorem C5_reboot_condition (cfg : Config) (env : String → HostObs)
    (now : ℚ) (st : MonState) (n : String)
    (h : (env n).reachable = true) :
    Effect.alert (Alert.rebooted n) ∈ (processHost cfg env now st n).2 ↔
      ∃ lu, getVal? st.lastUptime n = some lu ∧ (env n).uptime + 300 < lu := by
  rw [processHost_reachable cfg env now st n h]
  cases hlu : getVal? st.lastUptime n with
  | none =>
      have hk : hasKey st.lastUptime n = false := by
        cases hkk : hasKey st.lastUptime n
        · rfl
        · exact absurd ((hasKey_iff_getVal?_isSome _ _).mp hkk) (by simp [hlu])
      simp only [hk, List.mem_append, mem_ite_nil, List.mem_singleton, hlu]
      constructor
      · intro hmem
        rcases hmem with ((((⟨_, h1⟩ | ⟨_, h1⟩) | ⟨_, h1⟩) | h1) | h1) <;> simp_all
      · rintro ⟨lu, hl, _⟩
        simp at hl
  | some lu =>
      have hk : hasKey st.lastUptime n = true :=
        (hasKey_iff_getVal?_isSome _ _).mpr (by simp [hlu])
      simp only [hk, hlu, Option.getD_some, if_true, List.mem_append,
        mem_ite_nil, List.mem_singleton]
      constructor
      · intro hmem
        rcases hmem with ((((⟨_, h1⟩ | ⟨_, h1⟩) | ⟨_, h1⟩) | ⟨hcond, h1⟩) | h1)
          <;> exact ⟨lu, rfl, by simp_all⟩
      · rintro ⟨lu', hl, hcond⟩
        rcases Option.some_inj.mp hl.symm with rfl
        exact Or.inl (Or.inr ⟨hcond, trivial⟩)

theorem C5_reboot_witness :
    (Effect.alert (Alert.rebooted "a") ∈
      (processHost ⟨[⟨"a", "a"⟩], 89, 89⟩ (fun _ => ⟨true, ⟨0, 0⟩, [], 9000⟩)
        100 ⟨[("a", 10000)], []⟩ "a").2)
    ∧ (Effect.alert (Alert.rebooted "a") ∉
      (processHost ⟨[⟨"a", "a"⟩], 89, 89⟩ (fun _ => ⟨true, ⟨0, 0⟩, [], 9800⟩)
        100 ⟨[("a", 10000)], []⟩ "a").2) := by
  constructor
  · exact (C5_reboot_condition _ _ 100 _ "a" (by decide)).mpr
      ⟨10000, by decide, by norm_num⟩
  · intro hmem
    obtain ⟨lu, hlu, hlt⟩ := (C5_reboot_condition _ _ 100 _ "a" (by decide)).mp hmem
    simp [getVal?] at hlu
    rw [← hlu] at hlt
    norm_num at hlt

theorem hasKey_lastUptime_processHost (cfg : Config) (env : String → HostObs)
    (now : ℚ) (st : MonState) (n k : String)
    (h : hasKey st.lastUptime k = true) :
    hasKey (processHost cfg env now st n).1.lastUptime k = true := by
  cases hr : (env n).reachable
  · cases hds : hasKey st.downSince n
    · rw [processHost_unreachable_new cfg env now st n hr hds]
      exact h
    · rcases Option.isSome_iff_exists.mp
        ((hasKey_iff_getVal?_isSome st.downSince n).mp hds) with ⟨t, ht⟩
      rw [processHost_unreachable_again cfg env now st n t hr ht]
      exact h
  · rw [processHost_reachable cfg env now st n hr]
    exact hasKey_setKey_mono _ _ _ _ h

theorem hasKey_lastUptime_foldl (cfg : Config) (env : String → HostObs)
    (now : ℚ) (l : List Server) (st : MonState) (k : String)
    (h : hasKey st.lastUptime k = true) :
    hasKey (l.foldl (stepState cfg env now) st).lastUptime k = true := by
  induction l generalizing st with
  | nil => exact h
  | cons a l ih =>
      exact ih _ (hasKey_lastUptime_processHost cfg env now st a.name k h)

theorem monitor_fst_eq (cfg : Config) (env : String → HostObs) (now : ℚ)
    (st : MonState) : (monitor cfg env now st).1 = monitorState cfg env now st := by
  have aux : ∀ (l : List Server) (st : MonState) (e : List Effect),
      (l.foldl (monitorStep cfg env now) (st, e)).1
        = l.foldl (stepState cfg env now) st := by
    intro l
    induction l with
    | nil => intro st e; rfl
    | cons a l ih => intro st e; exact ih _ _
  exact aux cfg.SERVERS st []

/-- Claim C6: for a reachable host, the evaluation sets `last_uptime` for
that host to this poll's uptime reading and saves the updated map, whether
or not a reboot was flagged; and over a whole pass no existing
`last_uptime` entry is ever removed. -/
theorem C6_last_uptime_unconditional (cfg : Config) (env : String → HostObs)
    (now : ℚ) (st : MonState) (n k : String) :
    ((env n).reachable = true →
      (processHost cfg env now st n).1.lastUptime
          = setKey st.lastUptime n (env n).uptime
      ∧ Effect.saveLastUptime (setKey st.lastUptime n (env n).uptime)
          ∈ (processHost cfg env now st n).2)
    ∧ (hasKey st.lastUptime k = true →
        hasKey (monitor cfg env now st).1.lastUptime k = true) := by
  constructor
  · intro hr
    rw [processHost_reachable cfg env now st n hr]
    exact ⟨rfl, by simp⟩
  · intro hk
    rw [monitor_fst_eq]
    exact hasKey_lastUptime_foldl cfg env now cfg.SERVERS st k hk

theorem C6_last_uptime_witness :
    ((processHost ⟨[⟨"a", "a"⟩], 89, 89⟩ (fun _ => ⟨true, ⟨0, 0⟩, [], 5⟩)
        100 ⟨[("a", 10)], []⟩ "a").1.lastUptime = [("a", 5)])
    ∧ hasKey (monitor ⟨[⟨"a", "a"⟩], 89, 89⟩ (fun _ => ⟨true, ⟨0, 0⟩, [], 5⟩)
        100 ⟨[("a", 10)], []⟩).1.lastUptime "a" = true := by
  constructor
  · exact ((C6_last_uptime_unconditional _ _ 100 _ "a" "a").1 (by decide)).1
  · exact (C6_last_uptime_unconditional _ _ 100 _ "a" "a").2 (by decide)

theorem processHost_effects_nonempty (cfg : Config) (env : String → HostObs)
    (now : ℚ) (st : MonState) (n : String) :
    1 ≤ (processHost cfg env now st n).2.length := by
  cases hr : (env n).reachable
  · cases hds : hasKey st.downSince n
    · rw [processHost_unreachable_new cfg env now st n hr hds]
      simp
    · rcases Option.isSome_iff_exists.mp
        ((hasKey_iff_getVal?_isSome st.downSince n).mp hds) with ⟨t, ht⟩
      rw [processHost_unreachable_again cfg env now st n t hr ht]
      simp
  · rw [processHost_reachable cfg env now st n hr]
    simp
    omega

theorem monitor_effects_length_ge (cfg : Config) (env : String → HostObs)
    (now : ℚ) (st : MonState) :
    cfg.SERVERS.length ≤ (monitor cfg env now st).2.length := by
  have aux : ∀ (l : List Server) (st : MonState) (e : List Effect),
      e.length + l.length ≤ (l.foldl (monitorStep cfg env now) (st, e)).2.length := by
    intro l
    induction l with
    | nil => intro st e; simp
    | cons a l ih =>
        intro st e
        have h1 := processHost_effects_nonempty cfg env now st a.name
        have h2 := ih (processHost cfg env now st a.name).1
          (e ++ (processHost cfg env now st a.name).2)
        rw [List.foldl_cons]
        refine le_trans ?_ h2
        rw [List.length_append]
        simp only [List.length_cons]
        omega
  have := aux cfg.SERVERS st []
  simpa [monitor] using this

/-- Claim C7: no collaborator failure aborts a pass. Loading either
persisted map yields the empty dict when the file is absent or corrupt; a
failed uptime query yields the 0.0 sentinel; a failed per-sensor
temperature query leaves exactly that sensor at the 0.0 sentinel; a failed
GPU-process query yields the empty list; a failed reachability probe
yields false; and a pass always evaluates every configured server,
each contributing at least one effect to the trace. -/
theorem C7_graceful_degradation :
    load_last_uptime FileState.absent = []
    ∧ load_last_uptime FileState.corrupt = []
    ∧ load_down_since FileState.absent = []
    ∧ load_down_since FileState.corrupt = []
    ∧ get_system_uptime (Except.error ()) = 0
    ∧ (∀ gpuRes, (get_temperatures (Except.error ()) gpuRes).cpu = 0)
    ∧ (∀ cpuRes, (get_temperatures cpuRes (Except.error ())).gpu = 0)
    ∧ get_gpu_processes (Except.error ()) = ([] : List GpuProcess)
    ∧ is_server_reachable (Except.error ()) = false
    ∧ (∀ (cfg : Config) (env : String → HostObs) (now : ℚ) (st : MonState),
        cfg.SERVERS.length ≤ (monitor cfg env now st).2.length) := by
  refine ⟨rfl, rfl, rfl, rfl, rfl, ?_, ?_, rfl, rfl, ?_⟩
  · intro gpuRes
    rfl
  · intro cpuRes
    rfl
  · intro cfg env now st
    exact monitor_effects_length_ge cfg env now st

/-- The part of the state a host's own evaluation reads: after a host has
been evaluated once this poll, its reachability outcome is reflected in
`down_since` and, when reachable, its uptime reading in `last_uptime`. -/
def viewOK (env : String → HostObs) (st : MonState) (n : String) : Prop :=
  if (env n).reachable then
    hasKey st.downSince n = false
      ∧ getVal? st.lastUptime n = some (env n).uptime
  else hasKey st.downSince n = true

theorem viewOK_processHost_self (cfg : Config) (env : String → HostObs)
    (now : ℚ) (st : MonState) (n : String) :
    viewOK env (processHost cfg env now st n).1 n := by
  cases hr : (env n).reachable
  · cases hds : hasKey st.downSince n
    · rw [processHost_unreachable_new cfg env now st n hr hds]
      simp [viewOK, hr, hasKey_setKey_self]
    · rcases Option.isSome_iff_exists.mp
        ((hasKey_iff_getVal?_isSome st.downSince n).mp hds) with ⟨t, ht⟩
      rw [processHost_unreachable_again cfg env now st n t hr ht]
      simp [viewOK, hr, hds]
  · rw [processHost_reachable cfg env now st n hr]
    cases hds : hasKey st.downSince n
    · simp [viewOK, hr, hds, getVal?_setKey_self]
    · simp [viewOK, hr, hds, hasKey_eraseKey_self, getVal?_setKey_self]

theorem viewOK_processHost_other (cfg : Config) (env : String → HostObs)
    (now : ℚ) (st : MonState) (n g : String) (hng : g ≠ n)
    (h : viewOK env st n) : viewOK env (processHost cfg env now st g).1 n := by
  cases hr : (env g).reachable
  · cases hds : hasKey st.downSince g
    · rw [processHost_unreachable_new cfg env now st g hr hds]
      unfold viewOK at h ⊢
      cases hrn : (env n).reachable
      · simp only [hrn] at h ⊢
        simp only [Bool.false_eq_true, if_false] at h ⊢
        rw [hasKey_setKey_ne _ _ _ _ hng]
        exact h
      · simp only [hrn, if_true] at h ⊢
        exact ⟨by rw [hasKey_setKey_ne _ _ _ _ hng]; exact h.1, h.2⟩
    · rcases Option.isSome_iff_exists.mp
        ((hasKey_iff_getVal?_isSome st.downSince g).mp hds) with ⟨t, ht⟩
      rw [processHost_unreachable_again cfg env now st g t hr ht]
      exact h
  · rw [processHost_reachable cfg env now st g hr]
    unfold viewOK at h ⊢
    cases hrn : (env n).reachable
    · simp only [hrn] at h ⊢
      simp only [Bool.false_eq_true, if_false] at h ⊢
      cases hds : hasKey st.downSince g
      · simp only [hds, Bool.false_eq_true, if_false]
        exact h
      · simp only [hds, if_true]
        rw [hasKey_eraseKey_ne _ _ _ hng]
        exact h
    · simp only [hrn, if_true] at h ⊢
      refine ⟨?_, ?_⟩
      · cases hds : hasKey st.downSince g
        · simp only [hds, Bool.false_eq_true, if_false]
          exact h.1
        · simp only [hds, if_true]
          rw [hasKey_eraseKey_ne _ _ _ hng]
          exact h.1
      · rw [getVal?_setKey_ne _ _ _ _ hng]
        exact h.2

theorem viewOK_processHost_any (cfg : Config) (env : String → HostObs)
    (now : ℚ) (st : MonState) (n g : String) (h : viewOK env st n) :
    viewOK env (processHost cfg env now st g).1 n := by
  by_cases hg : g = n
  · subst hg
    exact viewOK_processHost_self cfg env now st g
  · exact viewOK_processHost_other cfg env now st n g hg h

theorem processHost_state_id_of_viewOK (cfg : Config) (env : String → HostObs)
    (now : ℚ) (st : MonState) (n : String) (h : viewOK env st n) :
    (processHost cfg env now st n).1 = st := by
  unfold viewOK at h
  cases hr : (env n).reachable
  · simp only [hr, Bool.false_eq_true, if_false] at h
    rcases Option.isSome_iff_exists.mp
      ((hasKey_iff_getVal?_isSome st.downSince n).mp h) with ⟨t, ht⟩
    rw [processHost_unreachable_again cfg env now st n t hr ht]
  · simp only [hr, if_true] at h
    rw [processHost_reachable cfg env now st n hr]
    simp only [h.1, Bool.false_eq_true, if_false]
    rw [setKey_eq_self_of_getVal? _ _ _ h.2]

theorem viewOK_foldl (cfg : Config) (env : String → HostObs) (now : ℚ)
    (l : List Server) (st : MonState) (n : String) (h : viewOK env st n) :
    viewOK env (l.foldl (stepState cfg env now) st) n := by
  induction l generalizing st with
  | nil => exact h
  | cons a l ih =>
      exact ih _ (viewOK_processHost_any cfg env now st n a.name h)

theorem viewOK_foldl_mem (cfg : Config) (env : String → HostObs) (now : ℚ)
    (l : List Server) (st : MonState) :
    ∀ s ∈ l, viewOK env (l.foldl (stepState cfg env now) st) s.name := by
  induction l generalizing st with
  | nil => intro s hs; cases hs
  | cons a l ih =>
      intro s hs
      rcases List.mem_cons.mp hs with rfl | hs
      · exact viewOK_foldl cfg env now l _ s.name
          (viewOK_processHost_self cfg env now st s.name)
      · exact ih _ s hs

theorem foldl_id_of_viewOK (cfg : Config) (env : String → HostObs) (now : ℚ)
    (l : List Server) (st : MonState)
    (h : ∀ s ∈ l, viewOK env st s.name) :
    l.foldl (stepState cfg env now) st = st := by
  induction l with
  | nil => rfl
  | cons a l ih =>
      have hid : stepState cfg env now st a = st :=
        processHost_state_id_of_viewOK cfg env now st a.name
          (h a (List.mem_cons_self a l))
      rw [List.foldl_cons, hid]
      exact ih (fun s hs => h s (List.mem_cons_of_mem a hs))

/-- Claim C8: running the pass twice against an environment returning
identical observations leaves the same persisted maps after the second run
as after the first (the timestamps of the two runs may differ; only the
state must be reproducible). -/
theorem C8_second_run_state_identical (cfg : Config) (env : String → HostObs)
    (now1 now2 : ℚ) (st : MonState) :
    (monitor cfg env now2 (monitor cfg env now1 st).1).1
      = (monitor cfg env now1 st).1 := by
  rw [monitor_fst_eq, monitor_fst_eq]
  unfold monitorState
  exact foldl_id_of_viewOK cfg env now2 cfg.SERVERS _
    (fun s hs => viewOK_foldl_mem cfg env now1 cfg.SERVERS st s hs)

theorem foldl_max_mem (l : List ℚ) : ∀ a : ℚ, l.foldl max a ∈ a :: l := by
  induction l with
  | nil => intro a; simp
  | cons c l ih =>
      intro a
      rw [List.foldl_cons]
      rcases List.mem_cons.mp (ih (max a c)) with h | h
      · rw [h]
        rcases max_choice a c with hm | hm <;> rw [hm] <;> simp
      · simp [h]

theorem le_foldl_max (l : List ℚ) : ∀ a b : ℚ, b ∈ a :: l → b ≤ l.foldl max a := by
  induction l with
  | nil =>
      intro a b hb
      simp at hb
      simp [hb]
  | cons c l ih =>
      intro a b hb
      rw [List.foldl_cons]
      rcases List.mem_cons.mp hb with hba | hb2
      · rw [hba]
        exact le_trans (le_max_left a c)
          (ih (max a c) (max a c) (List.mem_cons_self _ _))
      · rcases List.mem_cons.mp hb2 with hbc | hb3
        · rw [hbc]
          exact le_trans (le_max_right a c)
            (ih (max a c) (max a c) (List.mem_cons_self _ _))
        · exact ih (max a c) b (List.mem_cons_of_mem _ hb3)

/-- Claim C9: the GPU temperature reported for a host is the maximum of the
per-GPU readings the metrics query yields (an element of the list that
bounds every element); on a failed query or an empty reading list it stays
at the 0.0 sentinel. -/
theorem C9_gpu_temperature_max (cpuRes : Except Unit ℚ) :
    ((get_temperatures cpuRes (Except.error ())).gpu = 0)
    ∧ ((get_temperatures cpuRes (Except.ok [])).gpu = 0)
    ∧ (∀ ts : List ℚ, ts ≠ [] →
        (get_temperatures cpuRes (Except.ok ts)).gpu ∈ ts
        ∧ ∀ x ∈ ts, x ≤ (get_temperatures cpuRes (Except.ok ts)).gpu) := by
  refine ⟨rfl, rfl, ?_⟩
  intro ts hts
  match ts, hts with
  | x :: xs, _ =>
      have hgpu : (get_temperatures cpuRes (Except.ok (x :: xs))).gpu
          = xs.foldl max x := rfl
      rw [hgpu]
      exact ⟨foldl_max_mem xs x, fun b hb => le_foldl_max xs x b hb⟩

theorem C9_gpu_temperature_witness :
    ((get_temperatures (Except.error ()) (Except.ok [60, 75, 70])).gpu
        ∈ ([60, 75, 70] : List ℚ))
    ∧ ∀ x ∈ ([60, 75, 70] : List ℚ),
        x ≤ (get_temperatures (Except.error ()) (Except.ok [60, 75, 70])).gpu :=
  (C9_gpu_temperature_max (Except.error ())).2.2 [60, 75, 70] (by decide)

/-- Claim C10: the single-peer monitor is stateless: it emits exactly one
"appears to be down" alert when the SSH probe of the peer fails and
nothing when it succeeds; it saves no persisted map and never emits a
recovery or elapsed-downtime alert. -/
theorem C10_sashimi_stateless (probe : Except Unit String) :
    (is_sashimi_reachable probe = true → monitor_sashimi probe = [])
    ∧ (is_sashimi_reachable probe = false →
        monitor_sashimi probe = [Effect.alert (Alert.appearsDown "sashimi")])
    ∧ (∀ m, Effect.saveDownSince m ∉ monitor_sashimi probe)
    ∧ (∀ m, Effect.saveLastUptime m ∉ monitor_sashimi probe)
    ∧ (∀ h s, Effect.alert (Alert.backUp h s) ∉ monitor_sashimi probe)
    ∧ (∀ h s, Effect.alert (Alert.downFor h s) ∉ monitor_sashimi probe) := by
  cases probe <;> simp [monitor_sashimi, is_sashimi_reachable]

theorem C10_sashimi_witness :
    monitor_sashimi (Except.error ()) = [Effect.alert (Alert.appearsDown "sashimi")] :=
  (C10_sashimi_stateless (Except.error ())).2.1 (by decide)
